import Mathlib

/-!
Shallow embedding of the retrieval engine of the `chatbot-hmo` repository:
`backend/app/services/knowledge_base.py` (document parsing, entitlement
filtering) and `backend/app/services/embeddings.py` (embedding index build,
similarity search, context assembly), together with proofs of the specified
properties.

Modelling conventions:
* BeautifulSoup tag traversal is abstracted by `HtmlDoc`, whose string fields
  are the `.get_text().strip()` results of the relevant tags, in document
  order.
* The Azure OpenAI embedding provider is a parameter
  `provider : String → Option (List Rat)`; `none` models a raised exception.
* sklearn's `cosine_similarity`, which computes over IEEE floats, is
  abstracted as a parameter `sim : List Rat → List Rat → Rat`; every theorem
  below holds for an arbitrary `sim`.
* Python `dict` is an association list with unique keys (`dictInsert`
  overwrites in place, otherwise appends).
* Python's `list.sort(key=..., reverse=True)` is a stable descending sort;
  it is modelled by `List.mergeSort` with the reflexive comparison
  `fun a b => b.score ≤ a.score`, which Lean's `mergeSort` sorts stably.
-/

/-- The `KnowledgeChunk` dataclass of `knowledge_base.py`. -/
structure KnowledgeChunk where
  content : String
  source_file : String
  service_type : String
  chunk_id : String
  hmos : List String
  tiers : List String
deriving Repr, DecidableEq

/-- The three HMO names hard-coded in `_parse_table_content` (and used for the
header/contact chunks' `hmos`). -/
def hmo_names : List String := ["מכבי", "מאוחדת", "כללית"]

/-- The three membership tiers hard-coded in the parser. -/
def all_tiers : List String := ["זהב", "כסף", "ארד"]

/-- Python's substring test `needle in haystack`. -/
def pyIn (needle haystack : String) : Bool :=
  decide (List.IsInfix needle.data haystack.data)

/-- Decimal digit list of a natural number, fuel-driven so that it is
structurally recursive (and hence kernel-reducible); models Python's
`str(i)` for a non-negative `int`. -/
def natCharsAux (fuel n : Nat) (acc : List Char) : List Char :=
  match fuel with
  | 0 => acc
  | fuel + 1 =>
    if n < 10 then Nat.digitChar n :: acc
    else natCharsAux fuel (n / 10) (Nat.digitChar (n % 10) :: acc)

/-- Decimal character representation of a natural number. -/
def natChars (n : Nat) : List Char := natCharsAux (n + 1) n []

/-- Python `str(i)` for a row index. -/
def natStr (n : Nat) : String := ⟨natChars n⟩

/-- Evaluation map used to show `natChars` is injective. -/
def digitsVal (l : List Char) : Nat :=
  l.foldl (fun a c => 10 * a + (c.toNat - 48)) 0

/-- Model of the parsed HTML document as observed through BeautifulSoup in
`knowledge_base.py`; every string field holds the `.get_text().strip()`
result of the corresponding tag. -/
structure HtmlDoc where
  /-- stripped text of each `<p>` tag, in document order -/
  paragraphs : List String
  /-- for each `<ul>`: whether it has a `<table>` parent, and its stripped
  `<li>` texts -/
  bulletLists : List (Bool × List String)
  /-- stripped cell texts of each `<tr>` of the first `<table>`, if a table
  exists; the first row is the header row -/
  tableRows : Option (List (List String))
  /-- for each `<h3>`: its stripped text and, when a sibling `<ul>` follows,
  that list's stripped `<li>` texts (keyword matching on the stripped text is
  equivalent to the source's matching on the raw text, since the keywords
  contain no whitespace) -/
  contactHeadings : List (String × Option (List String))

/-- The `service_mapping` dict lookup of `_extract_service_type`. -/
def _extract_service_type (file_name : String) : String :=
  if file_name = "alternative_services.html" then "רפואה משלימה"
  else if file_name = "communication_clinic_services.html" then "מרפאות תקשורת"
  else if file_name = "dentel_services.html" then "מרפאות שיניים"
  else if file_name = "optometry_services.html" then "אופטומטריה"
  else if file_name = "pragrency_services.html" then "הריון"
  else if file_name = "workshops_services.html" then "סדנאות בריאות"
  else "שירותים כלליים"

/-- The `_extract_tier_info` helper: substring-scan the cell text for the
three tier keywords; default to all three tiers when none occurs. -/
def _extract_tier_info (hmo_details : String) : List String :=
  let tiers :=
    (if pyIn "זהב" hmo_details then ["זהב"] else []) ++
    (if pyIn "כסף" hmo_details then ["כסף"] else []) ++
    (if pyIn "ארד" hmo_details then ["ארד"] else [])
  if tiers = [] then all_tiers else tiers

/-- The `_parse_header_content` method: collect the non-empty paragraphs that
do not start with `הטבלה`, then one block per non-table `<ul>` with non-empty
items; emit a single header chunk when anything was collected. (The `title`
local of the source is computed but never used and is omitted.) -/
def _parse_header_content (doc : HtmlDoc) (file_name service_type : String) :
    List KnowledgeChunk :=
  let description_parts :=
    doc.paragraphs.filter (fun t => !(t == "") && !(t.startsWith "הטבלה")) ++
    doc.bulletLists.filterMap (fun ul =>
      if ul.1 then none
      else
        let services := ul.2.filter (fun s => !(s == ""))
        if services.isEmpty then none
        else some ("השירותים כוללים:\n" ++
          String.intercalate "\n" (services.map (fun s => "• " ++ s))))
  if description_parts.isEmpty then []
  else
    [{ content := service_type ++ "\n\n" ++
         String.intercalate "\n\n" description_parts
       source_file := file_name
       service_type := service_type
       chunk_id := file_name ++ "_header"
       hmos := hmo_names
       tiers := all_tiers }]

/-- The chunk built for one `(row, HMO)` pair in `_parse_table_content`. -/
def mkRowChunk (file_name service_type service_name hmo_name hmo_details :
    String) (i : Nat) : KnowledgeChunk :=
  { content := service_type ++ " - " ++ service_name ++ "\n\n" ++
      "קופת חולים: " ++ hmo_name ++ "\n\n" ++ hmo_details
    source_file := file_name
    service_type := service_type
    chunk_id := file_name ++ "_" ++ service_name ++ "_" ++ hmo_name ++ "_" ++
      natStr i
    hmos := [hmo_name]
    tiers := _extract_tier_info hmo_details }

/-- The body of the row loop of `_parse_table_content`: a row with fewer than
4 cells is skipped entirely; otherwise one chunk per HMO column. -/
def _parse_table_row (file_name service_type : String) (i : Nat)
    (cells : List String) : List KnowledgeChunk :=
  if cells.length < 4 then []
  else
    let service_name := cells.getD 0 ""
    hmo_names.enum.flatMap (fun p =>
      if p.1 + 1 < cells.length then
        [mkRowChunk file_name service_type service_name p.2
          (cells.getD (p.1 + 1) "") i]
      else [])

/-- The `_parse_table_content` method: skip the header row, then process each
data row. (The `headers` local of the source is computed but never used and
is omitted.) -/
def _parse_table_content (doc : HtmlDoc) (file_name service_type : String) :
    List KnowledgeChunk :=
  match doc.tableRows with
  | none => []
  | some trs =>
    (trs.drop 1).enum.flatMap (fun p =>
      _parse_table_row file_name service_type p.1 p.2)

/-- The `_parse_contact_info` method: keep the `<h3>` headings containing a
contact keyword and followed by a non-empty `<ul>`; emit a single contact
chunk when any section was collected. -/
def _parse_contact_info (doc : HtmlDoc) (file_name service_type : String) :
    List KnowledgeChunk :=
  let contact_sections := doc.contactHeadings.filterMap (fun p =>
    if ["טלפון", "פרטים", "מידע"].any (fun k => pyIn k p.1) then
      match p.2 with
      | some contact_info =>
        if contact_info.isEmpty then none
        else some (p.1 ++ "\n\n" ++ String.intercalate "\n" contact_info)
      | none => none
    else none)
  if contact_sections.isEmpty then []
  else
    [{ content := service_type ++ " - מידע ליצירת קשר\n\n" ++
         String.intercalate "\n\n" contact_sections
       source_file := file_name
       service_type := service_type
       chunk_id := file_name ++ "_contact"
       hmos := hmo_names
       tiers := all_tiers }]

/-- The `_parse_html_file` method: header, table and contact chunks of one
document, appended to the chunk list in this order. -/
def _parse_html_file (doc : HtmlDoc) (file_name : String) :
    List KnowledgeChunk :=
  let service_type := _extract_service_type file_name
  _parse_header_content doc file_name service_type ++
  _parse_table_content doc file_name service_type ++
  _parse_contact_info doc file_name service_type

/-- The fixed `html_files` list of `load_knowledge_base`. -/
def html_files : List String :=
  ["alternative_services.html", "communication_clinic_services.html",
   "dentel_services.html", "optometry_services.html",
   "pragrency_services.html", "workshops_services.html"]

/-- The `load_knowledge_base` method; `docs f = none` models a source file
that does not exist on disk (`os.path.exists` false). -/
def load_knowledge_base (docs : String → Option HtmlDoc) :
    List KnowledgeChunk :=
  html_files.flatMap (fun f =>
    match docs f with
    | none => []
    | some d => _parse_html_file d f)

/-- Python truthiness of an optional string: `None` and `""` are falsy. -/
def pyTruthy : Option String → Bool
  | none => false
  | some s => !(s == "")

/-- Membership test `user_hmo in chunk.hmos` guarded by truthiness, as in
`hmo_match = not user_hmo or user_hmo in chunk.hmos`. -/
def optionMatch (filt : Option String) (values : List String) : Bool :=
  !pyTruthy filt ||
    (match filt with
     | some h => values.contains h
     | none => false)

/-- The `get_chunks_for_user` method of `KnowledgeBaseService`. -/
def get_chunks_for_user (chunks : List KnowledgeChunk)
    (user_hmo user_tier : Option String) : List KnowledgeChunk :=
  if !pyTruthy user_hmo && !pyTruthy user_tier then chunks
  else
    chunks.filter (fun c =>
      optionMatch user_hmo c.hmos && optionMatch user_tier c.tiers)

/-- Python `dict` membership `k in m` for the embedding index. -/
def dictContains (m : List (String × List Rat)) (k : String) : Bool :=
  m.any (fun p => p.1 == k)

/-- Python `dict` read `m[k]` (as an `Option` for totality). -/
def dictLookup (m : List (String × List Rat)) (k : String) :
    Option (List Rat) :=
  (m.find? (fun p => p.1 == k)).map Prod.snd

/-- Python `dict` write `m[k] = v`: overwrite in place when the key exists,
otherwise append. -/
def dictInsert (m : List (String × List Rat)) (k : String) (v : List Rat) :
    List (String × List Rat) :=
  if m.any (fun p => p.1 == k) then
    m.map (fun p => if p.1 == k then (k, v) else p)
  else m ++ [(k, v)]

/-- The `_get_embedding` method of `EmbeddingsService`: the provider call is
wrapped in `try`/`except`, and ANY provider error is converted into the
1536-dimensional zero vector (the Ada-002 size). -/
def _get_embedding (provider : String → Option (List Rat)) (text : String) :
    List Rat :=
  match provider text with
  | some e => e
  | none => List.replicate 1536 0

/-- The embedding-generation loop of `initialize_knowledge_base`: given the
loaded chunk list, fill the `chunk_embeddings` dict in chunk order. -/
def build_chunk_embeddings (provider : String → Option (List Rat))
    (chunks : List KnowledgeChunk) : List (String × List Rat) :=
  chunks.foldl
    (fun m c => dictInsert m c.chunk_id (_get_embedding provider c.content)) []

/-- The `initialize_knowledge_base` method: load the knowledge base, then
generate one embedding per chunk; returns the final
`(self.chunks, self.chunk_embeddings)` state. -/
def initialize_knowledge_base (provider : String → Option (List Rat))
    (docs : String → Option HtmlDoc) :
    List KnowledgeChunk × List (String × List Rat) :=
  let chunks := load_knowledge_base docs
  (chunks, build_chunk_embeddings provider chunks)

/-- The comparison realizing `similarities.sort(key=lambda x: x[1],
reverse=True)`: Python's sort is stable and descending by score, which is
exactly `List.mergeSort` with this reflexive comparison. -/
def simDescLe (a b : KnowledgeChunk × Rat) : Bool := decide (b.2 ≤ a.2)

/-- The `similarities` list of `search_similar`: for every chunk surviving
the user filter whose `chunk_id` is in the embedding dict, pair it with the
similarity of its embedding to the query embedding. -/
def similarity_list (chunks : List KnowledgeChunk)
    (emb : List (String × List Rat)) (sim : List Rat → List Rat → Rat)
    (query_embedding : List Rat) (user_hmo user_tier : Option String) :
    List (KnowledgeChunk × Rat) :=
  (get_chunks_for_user chunks user_hmo user_tier).filterMap (fun c =>
    (dictLookup emb c.chunk_id).map (fun e => (c, sim query_embedding e)))

/-- The part of `search_similar` after the query-embedding call: filter,
score, sort stably descending, take the top `top_k`. -/
def search_similar_core (chunks : List KnowledgeChunk)
    (emb : List (String × List Rat)) (sim : List Rat → List Rat → Rat)
    (query_embedding : List Rat) (user_hmo user_tier : Option String)
    (top_k : Nat) : List (KnowledgeChunk × Rat) :=
  ((similarity_list chunks emb sim query_embedding user_hmo user_tier).mergeSort
    simDescLe).take top_k

/-- The `search_similar` method of `EmbeddingsService`. -/
def search_similar (chunks : List KnowledgeChunk)
    (emb : List (String × List Rat)) (sim : List Rat → List Rat → Rat)
    (provider : String → Option (List Rat)) (query : String)
    (user_hmo user_tier : Option String) (top_k : Nat) :
    List (KnowledgeChunk × Rat) :=
  search_similar_core chunks emb sim (_get_embedding provider query)
    user_hmo user_tier top_k

/-- Word splitting of Python's `str.split()` (no separator argument): the
maximal runs of non-whitespace characters, with `acc` the reversed current
run. -/
def pyWordsAux : List Char → List Char → List (List Char)
  | [], acc => if acc.isEmpty then [] else [acc.reverse]
  | c :: rest, acc =>
    if c.isWhitespace then
      if acc.isEmpty then pyWordsAux rest []
      else acc.reverse :: pyWordsAux rest []
    else pyWordsAux rest (c :: acc)

/-- Python `len(s.split())`, the rough token estimation of
`get_context_for_query`. -/
def word_count (s : String) : Nat := (pyWordsAux s.data []).length

/-- The `chunk_text` string built for a chunk in `get_context_for_query`. -/
def chunk_text (c : KnowledgeChunk) : String :=
  "מקור: " ++ c.service_type ++ "\n" ++ c.content ++ "\n"

/-- The context-assembly loop of `get_context_for_query`, with its `break`:
include a chunk while the running word count stays within the budget, and
stop at the first chunk that would exceed it. -/
def context_loop (max_context_length : Nat) :
    List (KnowledgeChunk × Rat) → List String → List String → Nat →
    List String × List String
  | [], context_parts, sources, _ => (context_parts, sources)
  | (c, _) :: rest, context_parts, sources, current_length =>
    let t := chunk_text c
    let l := word_count t
    if current_length + l ≤ max_context_length then
      context_loop max_context_length rest (context_parts ++ [t])
        (if sources.contains c.source_file then sources
         else sources ++ [c.source_file])
        (current_length + l)
    else (context_parts, sources)

/-- The `get_context_for_query` method: search with `top_k=10`, assemble the
context under the word budget, and return the joined context together with
the source list. -/
def get_context_for_query (chunks : List KnowledgeChunk)
    (emb : List (String × List Rat)) (sim : List Rat → List Rat → Rat)
    (provider : String → Option (List Rat)) (query : String)
    (user_hmo user_tier : Option String) (max_context_length : Nat) :
    String × List String :=
  let similar_chunks :=
    search_similar chunks emb sim provider query user_hmo user_tier 10
  let r := context_loop max_context_length similar_chunks [] [] 0
  (String.intercalate "\n---\n" r.1, r.2)

/-- Specification-side de-duplication keeping the first occurrence of every
element: transparently "no duplicates, in first-occurrence order". -/
def dedupKeepFirst : List String → List String
  | [] => []
  | s :: rest => s :: dedupKeepFirst (rest.filter (fun t => !(t == s)))
termination_by l => l.length
decreasing_by
  simp only [List.length_cons]
  exact Nat.lt_succ_of_le (List.length_filter_le _ _)

/-- Concrete document used for the scenario checks: one header paragraph, a
table with a header row plus two fully-populated data rows over the three
HMO columns, and no contact section. -/
def demoDoc : HtmlDoc :=
  { paragraphs := ["פסקה"]
    bulletLists := []
    tableRows := some [["שירות", "מכבי", "מאוחדת", "כללית"],
                       ["בדיקה", "ז1", "ז2", "ז3"],
                       ["טיפול", "ח4", "ח5", "ח6"]]
    contactHeadings := [] }

/-- Concrete knowledge base on disk: just the first source file. -/
def demoDocs : String → Option HtmlDoc := fun f =>
  if f = "alternative_services.html" then some demoDoc else none

/-- An embedding provider whose every call raises. -/
def failProvider : String → Option (List Rat) := fun _ => none

/-- A degenerate similarity kernel (what sklearn returns against a zero
query vector). -/
def zeroSim : List Rat → List Rat → Rat := fun _ _ => 0

/-- Concrete chunk entitled to Maccabi gold/silver. -/
def demoChunkA : KnowledgeChunk :=
  { content := "תוכן א", source_file := "a.html", service_type := "סוג",
    chunk_id := "a.html_header", hmos := ["מכבי"], tiers := ["זהב", "כסף"] }

/-- Concrete chunk entitled to Clalit gold. -/
def demoChunkB : KnowledgeChunk :=
  { content := "תוכן ב", source_file := "b.html", service_type := "סוג",
    chunk_id := "b.html_header", hmos := ["כללית"], tiers := ["זהב"] }

/-- Concrete embedding index for `demoChunkA`. -/
def demoEmb : List (String × List Rat) := [("a.html_header", [1, 0])]

/-! Helper lemmas about the decimal representation `natChars`. -/

theorem natCharsAux_acc (fuel : Nat) : ∀ n acc, n < fuel →
    natCharsAux fuel n acc = natCharsAux fuel n [] ++ acc := by
  induction fuel with
  | zero => intro n acc h; omega
  | succ fuel ih =>
    intro n acc h
    by_cases h10 : n < 10
    · simp [natCharsAux, h10]
    · have hd : n / 10 < n := Nat.div_lt_self (by omega) (by omega)
      simp only [natCharsAux, if_neg h10]
      rw [ih (n / 10) _ (by omega), ih (n / 10) [Nat.digitChar (n % 10)] (by omega)]
      simp

theorem natCharsAux_fuel : ∀ f1 f2 n, n < f1 → n < f2 →
    natCharsAux f1 n [] = natCharsAux f2 n [] := by
  intro f1
  induction f1 with
  | zero => intro f2 n h1 h2; omega
  | succ f1 ih =>
    intro f2 n h1 h2
    cases f2 with
    | zero => omega
    | succ f2 =>
      by_cases h10 : n < 10
      · simp [natCharsAux, h10]
      · have hd : n / 10 < n := Nat.div_lt_self (by omega) (by omega)
        simp only [natCharsAux, if_neg h10]
        rw [natCharsAux_acc f1 _ _ (by omega), natCharsAux_acc f2 _ _ (by omega),
          ih f2 (n / 10) (by omega) (by omega)]

/-- Unfolding equation: `natChars` is the usual decimal digit expansion. -/
theorem natChars_eq (n : Nat) :
    natChars n = if n < 10 then [Nat.digitChar n]
      else natChars (n / 10) ++ [Nat.digitChar (n % 10)] := by
  by_cases h10 : n < 10
  · simp [natChars, natCharsAux, h10]
  · have hd : n / 10 < n := Nat.div_lt_self (by omega) (by omega)
    have h1 : natCharsAux (n + 1) n [] =
        natCharsAux n (n / 10) [Nat.digitChar (n % 10)] := by
      simp only [natCharsAux, if_neg h10]
    rw [if_neg h10]
    show natCharsAux (n + 1) n [] = natChars (n / 10) ++ [Nat.digitChar (n % 10)]
    rw [h1, natCharsAux_acc n _ _ (by omega),
      natCharsAux_fuel n (n / 10 + 1) (n / 10) (by omega) (by omega)]
    rfl

theorem digitChar_isDigit {d : Nat} (h : d < 10) :
    (Nat.digitChar d).isDigit = true := by
  interval_cases d <;> decide

theorem digitChar_val {d : Nat} (h : d < 10) :
    (Nat.digitChar d).toNat - 48 = d := by
  interval_cases d <;> decide

theorem digitsVal_natChars (n : Nat) : digitsVal (natChars n) = n := by
  induction n using Nat.strong_induction_on with
  | _ n ih =>
    rw [natChars_eq]
    by_cases h10 : n < 10
    · simp [h10, digitsVal, digitChar_val h10]
    · have hd : n / 10 < n := Nat.div_lt_self (by omega) (by omega)
      have hih := ih (n / 10) hd
      simp only [if_neg h10, digitsVal, List.foldl_append] at hih ⊢
      rw [hih]
      have hm : n % 10 < 10 := Nat.mod_lt n (by omega)
      simp [digitChar_val hm]
      omega

theorem natChars_injective {m n : Nat} (h : natChars m = natChars n) :
    m = n := by
  have := digitsVal_natChars m
  rw [h, digitsVal_natChars] at this
  omega

theorem natStr_injective {m n : Nat} (h : natStr m = natStr n) : m = n := by
  apply natChars_injective
  exact congrArg String.data h

theorem natChars_isDigit {n : Nat} : ∀ c ∈ natChars n, c.isDigit = true := by
  induction n using Nat.strong_induction_on with
  | _ n ih =>
    intro c hc
    rw [natChars_eq] at hc
    by_cases h10 : n < 10
    · simp [h10] at hc
      subst hc
      exact digitChar_isDigit h10
    · have hd : n / 10 < n := Nat.div_lt_self (by omega) (by omega)
      simp [h10] at hc
      rcases hc with hc | hc
      · exact ih (n / 10) hd c hc
      · subst hc
        exact digitChar_isDigit (Nat.mod_lt n (by omega))

theorem natChars_no_uscore {n : Nat} : '_' ∉ natChars n := by
  intro h
  have := natChars_isDigit _ h
  simp [Char.isDigit] at this

theorem natChars_ne_nil {n : Nat} : natChars n ≠ [] := by
  rw [natChars_eq]
  by_cases h10 : n < 10 <;> simp [h10]

/-! Splitting a character list at a right-anchored underscore whose tail is
underscore-free is unambiguous. -/

theorem uscore_split : ∀ (u1 : List Char) {v1 u2 v2 : List Char},
    '_' ∉ v1 → '_' ∉ v2 → u1 ++ '_' :: v1 = u2 ++ '_' :: v2 →
    u1 = u2 ∧ v1 = v2 := by
  intro u1
  induction u1 with
  | nil =>
    intro v1 u2 v2 h1 h2 he
    cases u2 with
    | nil => simpa using he
    | cons c u2 =>
      simp only [List.nil_append, List.cons_append, List.cons.injEq] at he
      exfalso
      apply h1
      rw [he.2]
      simp
  | cons c u1 ih =>
    intro v1 u2 v2 h1 h2 he
    cases u2 with
    | nil =>
      simp only [List.cons_append, List.nil_append, List.cons.injEq] at he
      exfalso
      apply h2
      rw [← he.2]
      simp
    | cons d u2 =>
      simp only [List.cons_append, List.cons.injEq] at he
      obtain ⟨hcd, he⟩ := he
      obtain ⟨hu, hv⟩ := ih h1 h2 he
      exact ⟨by rw [hcd, hu], hv⟩

/-! Shape lemmas for the three `chunk_id` forms, at the character level. -/

theorem uscore_data : ("_" : String).data = ['_'] := rfl

theorem header_suffix_data : ("_header" : String).data = '_' :: "header".data := rfl

theorem contact_suffix_data : ("_contact" : String).data = '_' :: "contact".data := rfl

theorem header_id_data (f : String) :
    (f ++ "_header").data = f.data ++ '_' :: "header".data := by
  simp [header_suffix_data]

theorem contact_id_data (f : String) :
    (f ++ "_contact").data = f.data ++ '_' :: "contact".data := by
  simp [contact_suffix_data]

theorem row_id_data (f s h : String) (i : Nat) :
    (f ++ "_" ++ s ++ "_" ++ h ++ "_" ++ natStr i).data =
    ((f.data ++ '_' :: s.data) ++ '_' :: h.data) ++ '_' :: natChars i := by
  simp [natStr, uscore_data]

theorem hmo_no_uscore : ∀ h ∈ hmo_names, '_' ∉ h.data := by decide

theorem header_no_uscore : '_' ∉ ("header" : String).data := by decide

theorem contact_no_uscore : '_' ∉ ("contact" : String).data := by decide

/-- A row `chunk_id` never equals a header `chunk_id`, for any files. -/
theorem row_id_ne_header (f1 f2 s h : String) (i : Nat) :
    f1 ++ "_" ++ s ++ "_" ++ h ++ "_" ++ natStr i ≠ f2 ++ "_header" := by
  intro he
  have hd := congrArg String.data he
  rw [row_id_data, header_id_data] at hd
  have := (uscore_split _ natChars_no_uscore header_no_uscore hd).2
  have h7 : 'h' ∈ natChars i := by rw [this]; simp
  have := natChars_isDigit _ h7
  simp [Char.isDigit] at this

/-- A row `chunk_id` never equals a contact `chunk_id`, for any files. -/
theorem row_id_ne_contact (f1 f2 s h : String) (i : Nat) :
    f1 ++ "_" ++ s ++ "_" ++ h ++ "_" ++ natStr i ≠ f2 ++ "_contact" := by
  intro he
  have hd := congrArg String.data he
  rw [row_id_data, contact_id_data] at hd
  have := (uscore_split _ natChars_no_uscore contact_no_uscore hd).2
  have h7 : 'c' ∈ natChars i := by rw [this]; simp
  have := natChars_isDigit _ h7
  simp [Char.isDigit] at this

/-- A header `chunk_id` never equals a contact `chunk_id`, for any files. -/
theorem header_id_ne_contact (f1 f2 : String) :
    f1 ++ "_header" ≠ f2 ++ "_contact" := by
  intro he
  have hd := congrArg String.data he
  rw [header_id_data, contact_id_data] at hd
  have := (uscore_split _ header_no_uscore contact_no_uscore hd).2
  simp at this

/-- Header ids determine the file. -/
theorem header_id_injective {f1 f2 : String}
    (he : f1 ++ "_header" = f2 ++ "_header") : f1 = f2 := by
  have hd := congrArg String.data he
  rw [header_id_data, header_id_data] at hd
  exact String.ext (uscore_split _ header_no_uscore header_no_uscore hd).1

/-- Contact ids determine the file. -/
theorem contact_id_injective {f1 f2 : String}
    (he : f1 ++ "_contact" = f2 ++ "_contact") : f1 = f2 := by
  have hd := congrArg String.data he
  rw [contact_id_data, contact_id_data] at hd
  exact String.ext (uscore_split _ contact_no_uscore contact_no_uscore hd).1

/-- Two equal row ids agree on the HMO name, the row index, and the
`file ++ "_" ++ service` prefix. -/
theorem row_id_split {f1 f2 s1 s2 h1 h2 : String} {i1 i2 : Nat}
    (hh1 : h1 ∈ hmo_names) (hh2 : h2 ∈ hmo_names)
    (he : f1 ++ "_" ++ s1 ++ "_" ++ h1 ++ "_" ++ natStr i1 =
          f2 ++ "_" ++ s2 ++ "_" ++ h2 ++ "_" ++ natStr i2) :
    f1.data ++ '_' :: s1.data = f2.data ++ '_' :: s2.data ∧
    h1 = h2 ∧ i1 = i2 := by
  have hd := congrArg String.data he
  rw [row_id_data, row_id_data] at hd
  obtain ⟨hd1, hdi⟩ := uscore_split _ natChars_no_uscore natChars_no_uscore hd
  obtain ⟨hd2, hdh⟩ :=
    uscore_split _ (hmo_no_uscore h1 hh1) (hmo_no_uscore h2 hh2) hd1
  exact ⟨hd2, String.ext hdh, natChars_injective hdi⟩

/-- Within one file, row ids are determined by (service name, HMO, index). -/
theorem row_id_injective {f s1 s2 h1 h2 : String} {i1 i2 : Nat}
    (hh1 : h1 ∈ hmo_names) (hh2 : h2 ∈ hmo_names)
    (he : f ++ "_" ++ s1 ++ "_" ++ h1 ++ "_" ++ natStr i1 =
          f ++ "_" ++ s2 ++ "_" ++ h2 ++ "_" ++ natStr i2) :
    s1 = s2 ∧ h1 = h2 ∧ i1 = i2 := by
  obtain ⟨hfs, hh, hi⟩ := row_id_split hh1 hh2 he
  refine ⟨?_, hh, hi⟩
  have := List.append_cancel_left hfs
  exact String.ext (by simpa using this)

/-! Shape and distinctness lemmas for the chunks produced by the parser. -/

theorem if_nil_default_ne_nil (l : List String) :
    (if l = [] then all_tiers else l) ≠ [] := by
  split
  · decide
  · assumption

theorem extract_tier_info_ne_nil (d : String) : _extract_tier_info d ≠ [] :=
  if_nil_default_ne_nil _

/-- A header chunk, when produced, carries the fixed id suffix and the full
entitlement lists. -/
theorem mem_parse_header {doc : HtmlDoc} {f st : String} {c : KnowledgeChunk}
    (hc : c ∈ _parse_header_content doc f st) :
    c.chunk_id = f ++ "_header" ∧ c.source_file = f ∧
    c.hmos = hmo_names ∧ c.tiers = all_tiers := by
  simp only [_parse_header_content] at hc
  split at hc
  · simp at hc
  · rw [List.mem_singleton] at hc
    subst hc
    exact ⟨rfl, rfl, rfl, rfl⟩

/-- A contact chunk, when produced, carries the fixed id suffix and the full
entitlement lists. -/
theorem mem_parse_contact {doc : HtmlDoc} {f st : String} {c : KnowledgeChunk}
    (hc : c ∈ _parse_contact_info doc f st) :
    c.chunk_id = f ++ "_contact" ∧ c.source_file = f ∧
    c.hmos = hmo_names ∧ c.tiers = all_tiers := by
  simp only [_parse_contact_info] at hc
  split at hc
  · simp at hc
  · rw [List.mem_singleton] at hc
    subst hc
    exact ⟨rfl, rfl, rfl, rfl⟩

/-- With at least 4 cells, a table row yields exactly one chunk per HMO. -/
theorem parse_table_row_eq {f st : String} {i : Nat} {cells : List String}
    (h4 : ¬ cells.length < 4) :
    _parse_table_row f st i cells =
      [mkRowChunk f st (cells.getD 0 "") "מכבי" (cells.getD 1 "") i,
       mkRowChunk f st (cells.getD 0 "") "מאוחדת" (cells.getD 2 "") i,
       mkRowChunk f st (cells.getD 0 "") "כללית" (cells.getD 3 "") i] := by
  unfold _parse_table_row
  rw [if_neg h4]
  have he : hmo_names.enum = [(0, "מכבי"), (1, "מאוחדת"), (2, "כללית")] := rfl
  rw [he]
  simp only [List.flatMap_cons, List.flatMap_nil, List.append_nil]
  rw [if_pos (show 0 + 1 < cells.length by omega),
    if_pos (show 1 + 1 < cells.length by omega),
    if_pos (show 2 + 1 < cells.length by omega)]
  simp

/-- Every chunk of a table row is a `mkRowChunk` for one of the three HMOs
and this row's index. -/
theorem mem_parse_table_row {f st : String} {i : Nat} {cells : List String}
    {c : KnowledgeChunk} (hc : c ∈ _parse_table_row f st i cells) :
    ∃ h d, h ∈ hmo_names ∧ c = mkRowChunk f st (cells.getD 0 "") h d i := by
  by_cases h4 : cells.length < 4
  · unfold _parse_table_row at hc
    rw [if_pos h4] at hc
    simp at hc
  · rw [parse_table_row_eq h4] at hc
    simp only [List.mem_cons, List.not_mem_nil, or_false] at hc
    rcases hc with hc | hc | hc
    · exact ⟨"מכבי", cells.getD 1 "", by decide, hc⟩
    · exact ⟨"מאוחדת", cells.getD 2 "", by decide, hc⟩
    · exact ⟨"כללית", cells.getD 3 "", by decide, hc⟩

/-- Every chunk of the table section is a row chunk for some service name,
HMO and row index. -/
theorem mem_parse_table {doc : HtmlDoc} {f st : String} {c : KnowledgeChunk}
    (hc : c ∈ _parse_table_content doc f st) :
    ∃ s h d i, h ∈ hmo_names ∧ c = mkRowChunk f st s h d i := by
  unfold _parse_table_content at hc
  cases hr : doc.tableRows with
  | none => rw [hr] at hc; simp at hc
  | some trs =>
    rw [hr] at hc
    rw [List.mem_flatMap] at hc
    obtain ⟨p, _, hcp⟩ := hc
    obtain ⟨h, d, hh, hcm⟩ := mem_parse_table_row hcp
    exact ⟨(p.2).getD 0 "", h, d, p.1, hh, hcm⟩

/-- Row ids with the same file, service and index but different HMO names
differ. -/
theorem row_id_ne_of_hmo_ne {f s h1 h2 : String} {i : Nat}
    (hh1 : h1 ∈ hmo_names) (hh2 : h2 ∈ hmo_names) (hne : h1 ≠ h2) :
    f ++ "_" ++ s ++ "_" ++ h1 ++ "_" ++ natStr i ≠
    f ++ "_" ++ s ++ "_" ++ h2 ++ "_" ++ natStr i := fun he =>
  hne (row_id_injective hh1 hh2 he).2.1

theorem nodup_parse_table_row_ids {f st : String} {i : Nat}
    {cells : List String} :
    ((_parse_table_row f st i cells).map
      (fun c => c.chunk_id)).Nodup := by
  by_cases h4 : cells.length < 4
  · unfold _parse_table_row
    rw [if_pos h4]
    simp
  · rw [parse_table_row_eq h4]
    simp only [List.map_cons, List.map_nil, mkRowChunk]
    refine List.nodup_cons.mpr ⟨?_, List.nodup_cons.mpr ⟨?_,
      List.nodup_cons.mpr ⟨by simp, List.nodup_nil⟩⟩⟩
    · simp only [List.mem_cons, List.not_mem_nil, or_false]
      push_neg
      exact ⟨row_id_ne_of_hmo_ne (by decide) (by decide) (by decide),
        row_id_ne_of_hmo_ne (by decide) (by decide) (by decide)⟩
    · simp only [List.mem_cons, List.not_mem_nil, or_false]
      exact row_id_ne_of_hmo_ne (by decide) (by decide) (by decide)

theorem rows_flatMap_nodup {f st : String} :
    ∀ (l : List (Nat × List String)), (l.map Prod.fst).Nodup →
    ((l.flatMap (fun p => _parse_table_row f st p.1 p.2)).map
      (fun c => c.chunk_id)).Nodup := by
  intro l
  induction l with
  | nil => simp
  | cons p rest ih =>
    intro hnd
    simp only [List.map_cons, List.nodup_cons] at hnd
    simp only [List.flatMap_cons, List.map_append]
    rw [List.nodup_append]
    refine ⟨nodup_parse_table_row_ids, ih hnd.2, ?_⟩
    intro x hx1 hx2
    rw [List.mem_map] at hx1
    obtain ⟨c1, hc1, hx1⟩ := hx1
    obtain ⟨h1, d1, hh1, he1⟩ := mem_parse_table_row hc1
    rw [List.mem_map] at hx2
    obtain ⟨c2, hc2, hx2⟩ := hx2
    rw [List.mem_flatMap] at hc2
    obtain ⟨q, hq, hcq⟩ := hc2
    obtain ⟨h2, d2, hh2, he2⟩ := mem_parse_table_row hcq
    have hid : c1.chunk_id = c2.chunk_id := by rw [hx1, hx2]
    rw [he1, he2] at hid
    have := (row_id_injective hh1 hh2 hid).2.2
    apply hnd.1
    rw [List.mem_map]
    exact ⟨q, hq, by omega⟩

theorem nodup_parse_table_ids {doc : HtmlDoc} {f st : String} :
    ((_parse_table_content doc f st).map (fun c => c.chunk_id)).Nodup := by
  unfold _parse_table_content
  cases doc.tableRows with
  | none => simp
  | some trs =>
    exact rows_flatMap_nodup _ (List.nodup_enum_map_fst _)

theorem header_ids_cases (doc : HtmlDoc) (f st : String) :
    (_parse_header_content doc f st).map (fun c => c.chunk_id) = [] ∨
    (_parse_header_content doc f st).map (fun c => c.chunk_id) =
      [f ++ "_header"] := by
  simp only [_parse_header_content]
  split
  · left; rfl
  · right; rfl

theorem contact_ids_cases (doc : HtmlDoc) (f st : String) :
    (_parse_contact_info doc f st).map (fun c => c.chunk_id) = [] ∨
    (_parse_contact_info doc f st).map (fun c => c.chunk_id) =
      [f ++ "_contact"] := by
  simp only [_parse_contact_info]
  split
  · left; rfl
  · right; rfl

/-- All chunk ids produced from one parsed document are pairwise distinct. -/
theorem nodup_parse_file_ids {doc : HtmlDoc} {f : String} :
    ((_parse_html_file doc f).map (fun c => c.chunk_id)).Nodup := by
  unfold _parse_html_file
  simp only [List.map_append]
  rw [List.nodup_append]
  refine ⟨?_, ?_, ?_⟩
  · rw [List.nodup_append]
    refine ⟨?_, nodup_parse_table_ids, ?_⟩
    · rcases header_ids_cases doc f (_extract_service_type f)
        with h | h <;> rw [h] <;> simp
    · intro x hx1 hx2
      rw [List.mem_map] at hx1
      obtain ⟨c1, hc1, hx1⟩ := hx1
      have h1 := (mem_parse_header hc1).1
      rw [List.mem_map] at hx2
      obtain ⟨c2, hc2, hx2⟩ := hx2
      obtain ⟨s, h, d, i, hh, he⟩ := mem_parse_table hc2
      apply row_id_ne_header f f s h i
      calc f ++ "_" ++ s ++ "_" ++ h ++ "_" ++ natStr i
          = c2.chunk_id := by rw [he]; rfl
        _ = x := hx2
        _ = c1.chunk_id := hx1.symm
        _ = f ++ "_header" := h1
  · rcases contact_ids_cases doc f (_extract_service_type f)
      with h | h <;> rw [h] <;> simp
  · intro x hx1 hx2
    rw [List.mem_map] at hx2
    obtain ⟨c2, hc2, hx2⟩ := hx2
    have h2 := (mem_parse_contact hc2).1
    rw [List.mem_append] at hx1
    rcases hx1 with hx1 | hx1
    · rw [List.mem_map] at hx1
      obtain ⟨c1, hc1, hx1⟩ := hx1
      have h1 := (mem_parse_header hc1).1
      apply header_id_ne_contact f f
      calc f ++ "_header" = c1.chunk_id := h1.symm
        _ = x := hx1
        _ = c2.chunk_id := hx2.symm
        _ = f ++ "_contact" := h2
    · rw [List.mem_map] at hx1
      obtain ⟨c1, hc1, hx1⟩ := hx1
      obtain ⟨s, h, d, i, hh, he⟩ := mem_parse_table hc1
      apply row_id_ne_contact f f s h i
      calc f ++ "_" ++ s ++ "_" ++ h ++ "_" ++ natStr i
          = c1.chunk_id := by rw [he]; rfl
        _ = x := hx1
        _ = c2.chunk_id := hx2.symm
        _ = f ++ "_contact" := h2

/-- Shape of every chunk of one parsed document: its id is the header id,
the contact id, or a row id of this file, and its entitlement lists are
non-empty. -/
theorem mem_parse_file_shape {doc : HtmlDoc} {f : String}
    {c : KnowledgeChunk} (hc : c ∈ _parse_html_file doc f) :
    (c.chunk_id = f ++ "_header" ∨ c.chunk_id = f ++ "_contact" ∨
     ∃ s h i, h ∈ hmo_names ∧
       c.chunk_id = f ++ "_" ++ s ++ "_" ++ h ++ "_" ++ natStr i) ∧
    c.hmos ≠ [] ∧ c.tiers ≠ [] := by
  unfold _parse_html_file at hc
  rw [List.mem_append] at hc
  rcases hc with hc | hc
  · rw [List.mem_append] at hc
    rcases hc with hc | hc
    · obtain ⟨hid, _, hh, ht⟩ := mem_parse_header hc
      exact ⟨Or.inl hid, by rw [hh]; decide, by rw [ht]; decide⟩
    · obtain ⟨s, h, d, i, hh, he⟩ := mem_parse_table hc
      refine ⟨Or.inr (Or.inr ⟨s, h, i, hh, by rw [he]; rfl⟩), ?_, ?_⟩
      · rw [he]; simp [mkRowChunk]
      · rw [he]
        exact extract_tier_info_ne_nil d
  · obtain ⟨hid, _, hh, ht⟩ := mem_parse_contact hc
    exact ⟨Or.inr (Or.inl hid), by rw [hh]; decide, by rw [ht]; decide⟩

/-- Every chunk id of one parsed document starts with the file name followed
by an underscore. -/
theorem parse_file_id_form {doc : HtmlDoc} {f : String} {c : KnowledgeChunk}
    (hc : c ∈ _parse_html_file doc f) :
    ∃ r, c.chunk_id.data = f.data ++ '_' :: r := by
  rcases (mem_parse_file_shape hc).1 with h | h | ⟨s, hm, i, hh, h⟩
  · exact ⟨"header".data, by rw [h, header_id_data]⟩
  · exact ⟨"contact".data, by rw [h, contact_id_data]⟩
  · refine ⟨s.data ++ '_' :: hm.data ++ '_' :: natChars i, ?_⟩
    rw [h, row_id_data]
    simp

theorem html_files_nodup : html_files.Nodup := by decide

/-- No knowledge-base file name extended by an underscore is a prefix of
another one extended by an underscore. -/
theorem html_files_prefix_incompat : ∀ f1 ∈ html_files, ∀ f2 ∈ html_files,
    f1 ≠ f2 → ¬ (List.IsPrefix (f1.data ++ ['_']) (f2.data ++ ['_'])) := by
  decide

theorem files_flatMap_nodup (docs : String → Option HtmlDoc) :
    ∀ (l : List String), l.Nodup →
    (∀ f1 ∈ l, ∀ f2 ∈ l, f1 ≠ f2 →
      ¬ (List.IsPrefix (f1.data ++ ['_']) (f2.data ++ ['_']))) →
    ((l.flatMap (fun f =>
        match docs f with
        | none => []
        | some d => _parse_html_file d f)).map
      (fun c => c.chunk_id)).Nodup := by
  intro l
  induction l with
  | nil => simp
  | cons f rest ih =>
    intro hnd hpc
    rw [List.nodup_cons] at hnd
    simp only [List.flatMap_cons, List.map_append]
    rw [List.nodup_append]
    refine ⟨?_, ?_, ?_⟩
    · cases hd : docs f with
      | none => simp
      | some d => exact nodup_parse_file_ids
    · exact ih hnd.2 (fun f1 h1 f2 h2 =>
        hpc f1 (List.mem_cons_of_mem f h1) f2 (List.mem_cons_of_mem f h2))
    · intro x hx1 hx2
      rw [List.mem_map] at hx1
      obtain ⟨c1, hc1, hx1⟩ := hx1
      rw [List.mem_map] at hx2
      obtain ⟨c2, hc2, hx2⟩ := hx2
      rw [List.mem_flatMap] at hc2
      obtain ⟨f2, hf2, hc2⟩ := hc2
      have hne : f ≠ f2 := fun he => hnd.1 (he ▸ hf2)
      cases hd : docs f with
      | none => rw [hd] at hc1; simp at hc1
      | some d =>
        rw [hd] at hc1
        obtain ⟨r1, hr1⟩ := parse_file_id_form hc1
        cases hd2 : docs f2 with
        | none => rw [hd2] at hc2; simp at hc2
        | some d2 =>
          rw [hd2] at hc2
          obtain ⟨r2, hr2⟩ := parse_file_id_form hc2
          have hx : c1.chunk_id.data = c2.chunk_id.data := by rw [hx1, hx2]
          have hp1 : List.IsPrefix (f.data ++ ['_']) c1.chunk_id.data :=
            ⟨r1, by rw [hr1]; simp⟩
          have hp2 : List.IsPrefix (f2.data ++ ['_']) c1.chunk_id.data :=
            ⟨r2, by rw [hx, hr2]; simp⟩
          rcases List.prefix_or_prefix_of_prefix hp1 hp2 with hp | hp
          · exact hpc f (List.mem_cons_self f rest)
              f2 (List.mem_cons_of_mem f hf2) hne hp
          · exact hpc f2 (List.mem_cons_of_mem f hf2)
              f (List.mem_cons_self f rest) (Ne.symm hne) hp

/-- Across one full knowledge-base load, all chunk ids are pairwise
distinct. -/
theorem load_ids_nodup (docs : String → Option HtmlDoc) :
    ((load_knowledge_base docs).map (fun c => c.chunk_id)).Nodup :=
  files_flatMap_nodup docs html_files html_files_nodup html_files_prefix_incompat

/-- Every loaded chunk comes from one of the six files and has one of the
three id shapes; its entitlement lists are non-empty. -/
theorem mem_load_shape {docs : String → Option HtmlDoc} {c : KnowledgeChunk}
    (hc : c ∈ load_knowledge_base docs) :
    (∃ f ∈ html_files,
      c.chunk_id = f ++ "_header" ∨ c.chunk_id = f ++ "_contact" ∨
      ∃ s h i, h ∈ hmo_names ∧
        c.chunk_id = f ++ "_" ++ s ++ "_" ++ h ++ "_" ++ natStr i) ∧
    c.hmos ≠ [] ∧ c.tiers ≠ [] := by
  unfold load_knowledge_base at hc
  rw [List.mem_flatMap] at hc
  obtain ⟨f, hf, hc⟩ := hc
  cases hd : docs f with
  | none => rw [hd] at hc; simp at hc
  | some d =>
    rw [hd] at hc
    obtain ⟨hshape, hh, ht⟩ := mem_parse_file_shape hc
    exact ⟨⟨f, hf, hshape⟩, hh, ht⟩

/-! Lemmas about the embedding-index build. -/

theorem dictInsert_of_not_contains {m : List (String × List Rat)} {k : String}
    {v : List Rat} (h : dictContains m k = false) :
    dictInsert m k v = m ++ [(k, v)] := by
  unfold dictContains at h
  unfold dictInsert
  rw [if_neg]
  simp [h]

theorem foldl_dictInsert_eq (provider : String → Option (List Rat)) :
    ∀ (l : List KnowledgeChunk) (m : List (String × List Rat)),
    (∀ c ∈ l, dictContains m c.chunk_id = false) →
    ((l.map (fun c => c.chunk_id)).Nodup) →
    l.foldl (fun m c =>
        dictInsert m c.chunk_id (_get_embedding provider c.content)) m =
      m ++ l.map (fun c => (c.chunk_id, _get_embedding provider c.content)) := by
  intro l
  induction l with
  | nil => intro m _ _; simp
  | cons c rest ih =>
    intro m hm hnd
    rw [List.map_cons, List.nodup_cons] at hnd
    rw [List.foldl_cons, dictInsert_of_not_contains (hm c (List.mem_cons_self c rest))]
    rw [ih (m ++ [(c.chunk_id, _get_embedding provider c.content)]) ?_ hnd.2]
    · simp
    · intro c' hc'
      have h1 := hm c' (List.mem_cons_of_mem c hc')
      have h2 : ¬ c.chunk_id = c'.chunk_id := by
        intro he
        exact hnd.1 (he ▸ List.mem_map_of_mem (fun c => c.chunk_id) hc')
      unfold dictContains at h1 ⊢
      simp only [List.any_append, List.any_cons, List.any_nil, Bool.or_false]
      rw [h1]
      simp only [Bool.false_or]
      exact beq_false_of_ne h2

/-- After `initialize_knowledge_base`, the embedding dict is exactly one
pair per loaded chunk, in load order. -/
theorem build_chunk_embeddings_eq (provider : String → Option (List Rat))
    (docs : String → Option HtmlDoc) :
    build_chunk_embeddings provider (load_knowledge_base docs) =
      (load_knowledge_base docs).map
        (fun c => (c.chunk_id, _get_embedding provider c.content)) := by
  unfold build_chunk_embeddings
  rw [foldl_dictInsert_eq provider _ [] (fun c _ => rfl) (load_ids_nodup docs)]
  simp

theorem dictLookup_map_of_nodup (g : KnowledgeChunk → List Rat) :
    ∀ (l : List KnowledgeChunk) (c : KnowledgeChunk), c ∈ l →
    ((l.map (fun c => c.chunk_id)).Nodup) →
    dictLookup (l.map (fun c => (c.chunk_id, g c))) c.chunk_id = some (g c) := by
  intro l
  induction l with
  | nil => intro c hc; simp at hc
  | cons c' rest ih =>
    intro c hc hnd
    rw [List.map_cons, List.nodup_cons] at hnd
    rw [List.mem_cons] at hc
    unfold dictLookup
    rw [List.map_cons, List.find?_cons]
    rcases hc with hc | hc
    · subst hc
      simp
    · have hne : (c'.chunk_id == c.chunk_id) = false := by
        apply beq_false_of_ne
        intro he
        exact hnd.1 (he ▸ List.mem_map_of_mem (fun c => c.chunk_id) hc)
      rw [hne]
      exact ih c hc hnd.2

theorem filter_count_map_of_nodup (g : KnowledgeChunk → List Rat) :
    ∀ (l : List KnowledgeChunk) (c : KnowledgeChunk), c ∈ l →
    ((l.map (fun c => c.chunk_id)).Nodup) →
    ((l.map (fun c => (c.chunk_id, g c))).filter
      (fun p => p.1 == c.chunk_id)).length = 1 := by
  intro l
  induction l with
  | nil => intro c hc; simp at hc
  | cons c' rest ih =>
    intro c hc hnd
    rw [List.map_cons, List.nodup_cons] at hnd
    rw [List.mem_cons] at hc
    rw [List.map_cons, List.filter_cons]
    rcases hc with hc | hc
    · subst hc
      simp only [beq_self_eq_true, if_pos, List.length_cons]
      have : ((rest.map (fun c => (c.chunk_id, g c))).filter
          (fun p => p.1 == c.chunk_id)).length = 0 := by
        rw [List.length_eq_zero, List.filter_eq_nil_iff]
        intro p hp
        rw [List.mem_map] at hp
        obtain ⟨c2, hc2, hp⟩ := hp
        rw [← hp]
        intro he
        have he2 : c2.chunk_id = c.chunk_id := by simpa using he
        exact hnd.1 (he2 ▸ List.mem_map_of_mem (fun c => c.chunk_id) hc2)
      simp [this]
    · have hne : (c'.chunk_id == c.chunk_id) = false := by
        apply beq_false_of_ne
        intro he
        exact hnd.1 (he ▸ List.mem_map_of_mem (fun c => c.chunk_id) hc)
      simp only [hne]
      simp only [Bool.false_eq_true, if_false]
      exact ih c hc hnd.2

/-! Lemmas about word counting and the context-assembly loop. -/

theorem pyWordsAux_ne_nil : ∀ (l acc : List Char), acc ≠ [] →
    pyWordsAux l acc ≠ [] := by
  intro l
  induction l with
  | nil =>
    intro acc h
    unfold pyWordsAux
    rw [if_neg (by simpa using h)]
    simp
  | cons c rest ih =>
    intro acc h
    unfold pyWordsAux
    by_cases hw : c.isWhitespace
    · rw [if_pos hw, if_neg (by simpa using h)]
      simp
    · rw [if_neg hw]
      exact ih _ (by simp)

theorem mqor_data : ("מקור: " : String).data = 'מ' :: "קור: ".data := rfl

/-- The text assembled for a chunk starts with a non-whitespace character. -/
theorem chunk_text_data (c : KnowledgeChunk) :
    (chunk_text c).data =
      'מ' :: ("קור: ".data ++ (c.service_type.data ++
        ('\n' :: (c.content.data ++ ['\n'])))) := by
  simp [chunk_text, mqor_data]

/-- Every chunk text counts as at least one word. -/
theorem word_count_chunk_text_pos (c : KnowledgeChunk) :
    1 ≤ word_count (chunk_text c) := by
  unfold word_count
  rw [chunk_text_data]
  unfold pyWordsAux
  rw [if_neg (by decide)]
  have := pyWordsAux_ne_nil ("קור: ".data ++ (c.service_type.data ++
    ('\n' :: (c.content.data ++ ['\n'])))) ['מ'] (by simp)
  exact Nat.succ_le_of_lt (List.length_pos.mpr this)

theorem chunk_text_ne_empty (c : KnowledgeChunk) : chunk_text c ≠ "" := by
  intro h
  have := congrArg String.data h
  rw [chunk_text_data] at this
  simp at this

/-- Master specification of the context-assembly loop: the included chunks
are an initial prefix of the ranked list, the parts and sources are obtained
from exactly that prefix, the budget is respected whenever anything was
included, and the first excluded chunk (if any) would overflow the budget. -/
theorem context_loop_spec (M : Nat) :
    ∀ (cs : List (KnowledgeChunk × Rat)) (parts sources : List String)
      (cur : Nat),
    ∃ n, n ≤ cs.length ∧
      (context_loop M cs parts sources cur).1 =
        parts ++ (cs.take n).map (fun p => chunk_text p.1) ∧
      (context_loop M cs parts sources cur).2 =
        ((cs.take n).map (fun p => p.1.source_file)).foldl
          (fun acc s => if acc.contains s then acc else acc ++ [s]) sources ∧
      (cur + (((cs.take n).map
          (fun p => word_count (chunk_text p.1))).sum) ≤ M ∨ n = 0) ∧
      (∀ h : n < cs.length,
        M < cur + (((cs.take n).map
          (fun p => word_count (chunk_text p.1))).sum) +
          word_count (chunk_text (cs.get ⟨n, h⟩).1)) := by
  intro cs
  induction cs with
  | nil =>
    intro parts sources cur
    refine ⟨0, by simp, by simp [context_loop], by simp [context_loop], Or.inr rfl, ?_⟩
    intro h
    simp at h
  | cons p rest ih =>
    intro parts sources cur
    obtain ⟨c, r⟩ := p
    by_cases hin : cur + word_count (chunk_text c) ≤ M
    · obtain ⟨n, hn, hparts, hsrc, hbud, hbrk⟩ :=
        ih (parts ++ [chunk_text c])
          (if sources.contains c.source_file then sources
           else sources ++ [c.source_file])
          (cur + word_count (chunk_text c))
      have hstep : context_loop M ((c, r) :: rest) parts sources cur =
          context_loop M rest (parts ++ [chunk_text c])
            (if sources.contains c.source_file then sources
             else sources ++ [c.source_file])
            (cur + word_count (chunk_text c)) := by
        simp only [context_loop]
        rw [if_pos hin]
      refine ⟨n + 1, by simpa using hn, ?_, ?_, ?_, ?_⟩
      · rw [hstep, hparts]
        simp
      · rw [hstep, hsrc]
        simp
      · left
        rcases hbud with hbud | hbud
        · simp only [List.take_succ_cons, List.map_cons, List.sum_cons]
          omega
        · subst hbud
          simp only [List.take_succ_cons, List.take_zero, List.map_cons,
            List.map_nil, List.sum_cons, List.sum_nil]
          omega
      · intro h
        have h' : n < rest.length := by simpa using h
        have := hbrk h'
        simp only [List.take_succ_cons, List.map_cons, List.sum_cons]
        simp only [List.get_cons_succ]
        omega
    · refine ⟨0, by simp, ?_, ?_, Or.inr rfl, ?_⟩
      · simp only [context_loop]
        rw [if_neg hin]
        simp
      · simp only [context_loop]
        rw [if_neg hin]
        simp
      · intro h
        have hg : ((((c, r) :: rest).get ⟨0, h⟩).1) = c := rfl
        rw [hg]
        simp only [List.take_zero, List.map_nil, List.sum_nil, Nat.add_zero]
        omega

/-! Lemmas about source-list de-duplication. -/

theorem contains_eq_decide_mem (L : List String) (t : String) :
    L.contains t = decide (t ∈ L) := by
  by_cases h : t ∈ L
  · simp [h]
  · simp [h]

theorem mem_dedupKeepFirst : ∀ (l : List String) (x : String),
    x ∈ dedupKeepFirst l → x ∈ l := by
  intro l
  induction l using dedupKeepFirst.induct with
  | case1 => intro x hx; simp [dedupKeepFirst] at hx
  | case2 s rest ih =>
    intro x hx
    rw [dedupKeepFirst] at hx
    rcases List.mem_cons.mp hx with hx | hx
    · exact hx ▸ List.mem_cons_self _ _
    · exact List.mem_cons_of_mem _ (List.mem_of_mem_filter (ih x hx))

theorem dedupKeepFirst_nodup : ∀ (l : List String),
    (dedupKeepFirst l).Nodup := by
  intro l
  induction l using dedupKeepFirst.induct with
  | case1 => simp [dedupKeepFirst]
  | case2 s rest ih =>
    rw [dedupKeepFirst]
    rw [List.nodup_cons]
    refine ⟨?_, ih⟩
    intro hs
    have := mem_dedupKeepFirst _ _ hs
    rw [List.mem_filter] at this
    simp at this

theorem foldl_dedup_eq : ∀ (l acc : List String),
    l.foldl (fun acc s => if acc.contains s then acc else acc ++ [s]) acc =
      acc ++ dedupKeepFirst (l.filter (fun s => !(acc.contains s))) := by
  intro l
  induction l with
  | nil => intro acc; simp [dedupKeepFirst]
  | cons s rest ih =>
    intro acc
    rw [List.foldl_cons]
    by_cases hs : acc.contains s
    · rw [if_pos hs, ih acc, List.filter_cons, hs]
      simp
    · have hsf : acc.contains s = false := by
        rw [contains_eq_decide_mem]
        rw [contains_eq_decide_mem] at hs
        simpa using hs
      rw [if_neg hs, ih (acc ++ [s]), List.filter_cons, hsf]
      simp only [Bool.not_false, if_pos]
      rw [dedupKeepFirst]
      have hfeq : rest.filter (fun t => !((acc ++ [s]).contains t)) =
          (rest.filter (fun t => !(acc.contains t))).filter
            (fun t => !(t == s)) := by
        rw [List.filter_filter]
        apply List.filter_congr
        intro t _
        rw [contains_eq_decide_mem, contains_eq_decide_mem]
        by_cases h1 : t ∈ acc <;> by_cases h2 : t = s <;>
          simp [h1, h2, List.mem_append]
      rw [hfeq]
      simp

/-! Lemmas about `String.intercalate`. -/

theorem intercalate_go_shape : ∀ (l : List String) (acc s : String),
    ∃ t, String.intercalate.go acc s l = acc ++ t := by
  intro l
  induction l with
  | nil =>
    intro acc s
    refine ⟨"", ?_⟩
    apply String.ext
    simp [String.intercalate.go]
  | cons a as ih =>
    intro acc s
    obtain ⟨t, ht⟩ := ih (acc ++ s ++ a) s
    refine ⟨s ++ a ++ t, ?_⟩
    rw [show String.intercalate.go acc s (a :: as) =
      String.intercalate.go (acc ++ s ++ a) s as from rfl, ht]
    apply String.ext
    simp

theorem intercalate_cons_ne_empty {s a : String} {l : List String}
    (h : a.data ≠ []) : String.intercalate s (a :: l) ≠ "" := by
  obtain ⟨t, ht⟩ := intercalate_go_shape l a s
  rw [show String.intercalate s (a :: l) = String.intercalate.go a s l from rfl,
    ht]
  intro he
  have hd := congrArg String.data he
  simp at hd
  exact h hd.1

/-! Lemmas about profile filtering. -/

theorem get_chunks_both (chunks : List KnowledgeChunk) {H T : String}
    (hH : H ≠ "") (hT : T ≠ "") :
    get_chunks_for_user chunks (some H) (some T) =
      chunks.filter (fun c => c.hmos.contains H && c.tiers.contains T) := by
  have hHb : (H == "") = false := beq_false_of_ne hH
  have hTb : (T == "") = false := beq_false_of_ne hT
  unfold get_chunks_for_user pyTruthy optionMatch
  simp [pyTruthy, hHb, hTb]

theorem get_chunks_hmo_only (chunks : List KnowledgeChunk) {H : String}
    (hH : H ≠ "") :
    get_chunks_for_user chunks (some H) none =
      chunks.filter (fun c => c.hmos.contains H) := by
  have hHb : (H == "") = false := beq_false_of_ne hH
  unfold get_chunks_for_user pyTruthy optionMatch
  simp [pyTruthy, hHb]

theorem get_chunks_tier_only (chunks : List KnowledgeChunk) {T : String}
    (hT : T ≠ "") :
    get_chunks_for_user chunks none (some T) =
      chunks.filter (fun c => c.tiers.contains T) := by
  have hTb : (T == "") = false := beq_false_of_ne hT
  unfold get_chunks_for_user pyTruthy optionMatch
  simp [pyTruthy, hTb]

theorem get_chunks_none (chunks : List KnowledgeChunk) :
    get_chunks_for_user chunks none none = chunks := by
  unfold get_chunks_for_user pyTruthy
  simp

theorem get_chunks_sublist (chunks : List KnowledgeChunk)
    (hmo tier : Option String) :
    List.Sublist (get_chunks_for_user chunks hmo tier) chunks := by
  unfold get_chunks_for_user
  split
  · exact List.Sublist.refl _
  · exact List.filter_sublist _

/-! Lemmas about the similarity sort. -/

theorem simDescLe_trans : ∀ a b c : KnowledgeChunk × Rat,
    simDescLe a b → simDescLe b c → simDescLe a c := by
  intro a b c hab hbc
  simp only [simDescLe, decide_eq_true_eq] at *
  exact le_trans hbc hab

theorem simDescLe_total : ∀ a b : KnowledgeChunk × Rat,
    simDescLe a b || simDescLe b a := by
  intro a b
  simp only [simDescLe]
  rcases le_total a.2 b.2 with h | h <;> simp [h]

theorem filterMap_pair_fst (g : KnowledgeChunk → Option (List Rat))
    (f2 : KnowledgeChunk → List Rat → Rat) :
    ∀ l : List KnowledgeChunk,
    ((l.filterMap (fun c => (g c).map (fun e => (c, f2 c e)))).map Prod.fst) =
      l.filter (fun c => (g c).isSome) := by
  intro l
  induction l with
  | nil => simp
  | cons c rest ih =>
    cases hg : g c with
    | none => simp [List.filterMap_cons, hg, List.filter_cons, ih]
    | some e => simp [List.filterMap_cons, hg, List.filter_cons, ih]

/-- The scored list preserves the relative order of the chunk list. -/
theorem similarity_list_fst_sublist (chunks : List KnowledgeChunk)
    (emb : List (String × List Rat)) (sim : List Rat → List Rat → Rat)
    (qe : List Rat) (hmo tier : Option String) :
    List.Sublist ((similarity_list chunks emb sim qe hmo tier).map Prod.fst)
      chunks := by
  unfold similarity_list
  rw [filterMap_pair_fst (fun c => dictLookup emb c.chunk_id)
    (fun _ e => sim qe e) (get_chunks_for_user chunks hmo tier)]
  exact (List.filter_sublist _).trans (get_chunks_sublist chunks hmo tier)

/-! Claim theorems. -/

/-- C1 (counterexample): the claim that a query-time embedding-provider error
propagates out of `search_similar` is FALSE on the code: `_get_embedding`
catches every provider exception, so with a provider that raises on every
call, the query embedding silently becomes the 1536-dimensional zero vector
and `search_similar` returns a normal (degraded) result list instead of
raising. -/
theorem C1_counterexample :
    _get_embedding failProvider "שאלה" = List.replicate 1536 0 ∧
    search_similar [demoChunkA] demoEmb zeroSim failProvider "שאלה"
      none none 5 = [(demoChunkA, 0)] := by
  constructor
  · rfl
  · simp [search_similar, search_similar_core, similarity_list,
      get_chunks_for_user, pyTruthy, dictLookup, demoEmb, demoChunkA, zeroSim]

/-- C1 (amended): a query-time provider failure is caught inside
`_get_embedding` and replaced by the 1536-dimensional zero vector, so
`search_similar` proceeds with that zero query embedding and returns a
normal degraded result rather than propagating the error. -/
theorem C1_query_failure_degrades (chunks : List KnowledgeChunk)
    (emb : List (String × List Rat)) (sim : List Rat → List Rat → Rat)
    (provider : String → Option (List Rat)) (query : String)
    (hmo tier : Option String) (k : Nat) (h : provider query = none) :
    search_similar chunks emb sim provider query hmo tier k =
      search_similar_core chunks emb sim (List.replicate 1536 0)
        hmo tier k := by
  unfold search_similar _get_embedding
  rw [h]

/-- Witness for C1 (amended) at a concrete failing provider. -/
theorem C1_query_failure_degrades_witness :
    search_similar [demoChunkA] demoEmb zeroSim failProvider "שאלה"
      none none 5 =
      search_similar_core [demoChunkA] demoEmb zeroSim
        (List.replicate 1536 0) none none 5 :=
  C1_query_failure_degrades [demoChunkA] demoEmb zeroSim failProvider
    "שאלה" none none 5 rfl

/-- C3: for non-empty filter values, `get_chunks_for_user` returns exactly
the chunks whose `hmos` contain the HMO and whose `tiers` contain the tier
(as an order-preserving `filter` of the chunk list); supplying only one
filter constrains only that axis, and supplying neither returns the full
chunk list unchanged. -/
theorem C3_filter_semantics (chunks : List KnowledgeChunk) (H T : String)
    (hH : H ≠ "") (hT : T ≠ "") :
    get_chunks_for_user chunks (some H) (some T) =
      chunks.filter (fun c => c.hmos.contains H && c.tiers.contains T) ∧
    get_chunks_for_user chunks (some H) none =
      chunks.filter (fun c => c.hmos.contains H) ∧
    get_chunks_for_user chunks none (some T) =
      chunks.filter (fun c => c.tiers.contains T) ∧
    get_chunks_for_user chunks none none = chunks :=
  ⟨get_chunks_both chunks hH hT, get_chunks_hmo_only chunks hH,
   get_chunks_tier_only chunks hT, get_chunks_none chunks⟩

/-- Witness for C3: the spec's scenario — querying with hmo מכבי, tier זהב
against the two demo chunks returns only the first. -/
theorem C3_filter_semantics_witness :
    ("מכבי" : String) ≠ "" ∧ ("זהב" : String) ≠ "" ∧
    get_chunks_for_user [demoChunkA, demoChunkB] (some "מכבי")
      (some "זהב") = [demoChunkA] := by
  refine ⟨by decide, by decide, ?_⟩
  rw [(C3_filter_semantics [demoChunkA, demoChunkB] "מכבי" "זהב"
    (by decide) (by decide)).1]
  decide

/-- C4: every chunk produced by parsing any document carries non-empty
`hmos` and `tiers` lists, and a row cell whose text contains none of the
three tier keywords defaults to all three tiers. -/
theorem C4_nonempty_entitlements :
    (∀ (doc : HtmlDoc) (f : String) (c : KnowledgeChunk),
      c ∈ _parse_html_file doc f → c.hmos ≠ [] ∧ c.tiers ≠ []) ∧
    (∀ d : String, pyIn "זהב" d = false → pyIn "כסף" d = false →
      pyIn "ארד" d = false → _extract_tier_info d = all_tiers) := by
  constructor
  · intro doc f c hc
    exact (mem_parse_file_shape hc).2
  · intro d h1 h2 h3
    unfold _extract_tier_info
    rw [h1, h2, h3]
    simp

/-- Witness for C4 at the demo document and a keyword-free cell text. -/
theorem C4_nonempty_entitlements_witness :
    ((_parse_html_file demoDoc "alternative_services.html").getD 0 demoChunkA)
      ∈ _parse_html_file demoDoc "alternative_services.html" ∧
    (((_parse_html_file demoDoc "alternative_services.html").getD 0
        demoChunkA).hmos ≠ [] ∧
      ((_parse_html_file demoDoc "alternative_services.html").getD 0
        demoChunkA).tiers ≠ []) ∧
    (pyIn "זהב" "אין" = false ∧ _extract_tier_info "אין" = all_tiers) :=
  ⟨by decide,
   C4_nonempty_entitlements.1 demoDoc "alternative_services.html" _
     (by decide),
   by decide,
   C4_nonempty_entitlements.2 "אין" (by decide) (by decide) (by decide)⟩

/-- C6: after `initialize_knowledge_base`, every loaded chunk's `chunk_id`
has exactly one entry in the embedding dict; the entry is the provider's
embedding of the chunk's content, and when the provider failed on that
chunk it is the deterministic 1536-dimensional zero vector — never a
missing key. -/
theorem C6_index_total (provider : String → Option (List Rat))
    (docs : String → Option HtmlDoc) (c : KnowledgeChunk)
    (hc : c ∈ (initialize_knowledge_base provider docs).1) :
    ((initialize_knowledge_base provider docs).2.filter
      (fun p => p.1 == c.chunk_id)).length = 1 ∧
    dictLookup (initialize_knowledge_base provider docs).2 c.chunk_id =
      some (_get_embedding provider c.content) ∧
    (provider c.content = none →
      dictLookup (initialize_knowledge_base provider docs).2 c.chunk_id =
        some (List.replicate 1536 0)) := by
  have h2 : (initialize_knowledge_base provider docs).2 =
      build_chunk_embeddings provider (load_knowledge_base docs) := rfl
  have h1 : (initialize_knowledge_base provider docs).1 =
      load_knowledge_base docs := rfl
  rw [h1] at hc
  rw [h2, build_chunk_embeddings_eq]
  refine ⟨filter_count_map_of_nodup _ _ c hc (load_ids_nodup docs),
    dictLookup_map_of_nodup _ _ c hc (load_ids_nodup docs), ?_⟩
  intro hfail
  rw [dictLookup_map_of_nodup _ _ c hc (load_ids_nodup docs)]
  unfold _get_embedding
  rw [hfail]

/-- Witness for C6: with an always-failing provider and the demo knowledge
base, the first loaded chunk's id maps to the zero vector. -/
theorem C6_index_total_witness :
    ((load_knowledge_base demoDocs).getD 0 demoChunkA)
      ∈ (initialize_knowledge_base failProvider demoDocs).1 ∧
    dictLookup (initialize_knowledge_base failProvider demoDocs).2
      (((load_knowledge_base demoDocs).getD 0 demoChunkA).chunk_id) =
      some (List.replicate 1536 0) :=
  ⟨by decide,
   (C6_index_total failProvider demoDocs _ (by decide)).2.2 rfl⟩

/-- C7: within a single load (over any documents), all generated chunk ids
are pairwise distinct, and every id is composed as source file plus the
"_header" suffix, the file plus the "_contact" suffix, or the file plus
service name, HMO name and row index. (Determinism is immediate: the
embedding is a pure function of the documents.) -/
theorem C7_chunk_ids_unique (docs : String → Option HtmlDoc) :
    ((load_knowledge_base docs).map (fun c => c.chunk_id)).Nodup ∧
    ∀ c ∈ load_knowledge_base docs, ∃ f ∈ html_files,
      c.chunk_id = f ++ "_header" ∨ c.chunk_id = f ++ "_contact" ∨
      ∃ s h i, h ∈ hmo_names ∧
        c.chunk_id = f ++ "_" ++ s ++ "_" ++ h ++ "_" ++ natStr i :=
  ⟨load_ids_nodup docs, fun _ hc => (mem_load_shape hc).1⟩

/-- Witness for C7 at the demo knowledge base. -/
theorem C7_chunk_ids_unique_witness :
    ((load_knowledge_base demoDocs).map (fun c => c.chunk_id)).Nodup ∧
    ∃ f ∈ html_files,
      ((load_knowledge_base demoDocs).getD 0 demoChunkA).chunk_id =
          f ++ "_header" ∨
      ((load_knowledge_base demoDocs).getD 0 demoChunkA).chunk_id =
          f ++ "_contact" ∨
      ∃ s h i, h ∈ hmo_names ∧
        ((load_knowledge_base demoDocs).getD 0 demoChunkA).chunk_id =
          f ++ "_" ++ s ++ "_" ++ h ++ "_" ++ natStr i :=
  ⟨(C7_chunk_ids_unique demoDocs).1,
   (C7_chunk_ids_unique demoDocs).2 _ (by decide)⟩

/-- C9: a table row with fewer than 4 cells contributes zero chunks, and the
demo document (one header paragraph, a 2-row table fully populated across
the 3 HMO columns, no contact section) yields exactly 1 header chunk plus
6 row chunks plus 0 contact chunks, 7 in total. -/
theorem C9_row_skip_and_scenario :
    (∀ (f st : String) (i : Nat) (cells : List String),
      cells.length < 4 → _parse_table_row f st i cells = []) ∧
    (_parse_header_content demoDoc "alternative_services.html"
      (_extract_service_type "alternative_services.html")).length = 1 ∧
    (_parse_table_content demoDoc "alternative_services.html"
      (_extract_service_type "alternative_services.html")).length = 6 ∧
    (_parse_contact_info demoDoc "alternative_services.html"
      (_extract_service_type "alternative_services.html")).length = 0 ∧
    (_parse_html_file demoDoc "alternative_services.html").length = 7 := by
  refine ⟨?_, rfl, rfl, rfl, rfl⟩
  intro f st i cells h
  unfold _parse_table_row
  rw [if_pos h]

/-- Witness for C9: a 2-cell row (service name plus one HMO column) is
skipped entirely. -/
theorem C9_row_skip_and_scenario_witness :
    (["שירות", "פרט"] : List String).length < 4 ∧
    _parse_table_row "x.html" "סוג" 0 ["שירות", "פרט"] = [] :=
  ⟨by decide,
   C9_row_skip_and_scenario.1 "x.html" "סוג" 0 ["שירות", "פרט"] (by decide)⟩

theorem get_context_fst (chunks : List KnowledgeChunk)
    (emb : List (String × List Rat)) (sim : List Rat → List Rat → Rat)
    (provider : String → Option (List Rat)) (query : String)
    (hmo tier : Option String) (M : Nat) :
    (get_context_for_query chunks emb sim provider query hmo tier M).1 =
      String.intercalate "\n---\n"
        (context_loop M
          (search_similar chunks emb sim provider query hmo tier 10)
          [] [] 0).1 := rfl

theorem get_context_snd (chunks : List KnowledgeChunk)
    (emb : List (String × List Rat)) (sim : List Rat → List Rat → Rat)
    (provider : String → Option (List Rat)) (query : String)
    (hmo tier : Option String) (M : Nat) :
    (get_context_for_query chunks emb sim provider query hmo tier M).2 =
      (context_loop M
        (search_similar chunks emb sim provider query hmo tier 10)
        [] [] 0).2 := rfl

/-- C2: the context is the join of the full texts of an initial prefix of
the ranked list (chunks are never truncated), its cumulative word count
stays within the budget, the first excluded chunk (if any) would overflow
the budget, and a zero budget yields an empty context and an empty source
list. -/
theorem C2_context_budget (chunks : List KnowledgeChunk)
    (emb : List (String × List Rat)) (sim : List Rat → List Rat → Rat)
    (provider : String → Option (List Rat)) (query : String)
    (hmo tier : Option String) (M : Nat) :
    ∃ n,
      (get_context_for_query chunks emb sim provider query hmo tier M).1 =
        String.intercalate "\n---\n"
          (((search_similar chunks emb sim provider query hmo tier 10).take
            n).map (fun p => chunk_text p.1)) ∧
      (((search_similar chunks emb sim provider query hmo tier 10).take
        n).map (fun p => word_count (chunk_text p.1))).sum ≤ M ∧
      (∀ h : n <
          (search_similar chunks emb sim provider query hmo tier 10).length,
        M < (((search_similar chunks emb sim provider query hmo tier
            10).take n).map (fun p => word_count (chunk_text p.1))).sum +
          word_count (chunk_text
            (((search_similar chunks emb sim provider query hmo tier
              10).get ⟨n, h⟩).1))) ∧
      (M = 0 →
        (get_context_for_query chunks emb sim provider query hmo tier
          M).1 = "" ∧
        (get_context_for_query chunks emb sim provider query hmo tier
          M).2 = []) := by
  obtain ⟨n, hn, hparts, hsrc, hbud, hbrk⟩ := context_loop_spec M
    (search_similar chunks emb sim provider query hmo tier 10) [] [] 0
  refine ⟨n, ?_, ?_, ?_, ?_⟩
  · rw [get_context_fst, hparts, List.nil_append]
  · rcases hbud with h | h
    · omega
    · subst h
      simp
  · intro h
    have := hbrk h
    omega
  · intro hM
    have htn : (search_similar chunks emb sim provider query hmo tier
        10).take n = [] := by
      cases htake : (search_similar chunks emb sim provider query hmo tier
          10).take n with
      | nil => rfl
      | cons q rest =>
        exfalso
        rcases hbud with h | h
        · rw [htake] at h
          have h1 := word_count_chunk_text_pos q.1
          simp only [List.map_cons, List.sum_cons] at h
          omega
        · subst h
          simp at htake
    constructor
    · rw [get_context_fst, hparts, htn]
      simp [String.intercalate]
    · rw [get_context_snd, hsrc, htn]
      simp

/-- Witness for C2: with a zero budget and a matching chunk available, the
context and the source list are both empty. -/
theorem C2_context_budget_witness :
    (get_context_for_query [demoChunkA] demoEmb zeroSim failProvider
      "שאלה" none none 0).1 = "" ∧
    (get_context_for_query [demoChunkA] demoEmb zeroSim failProvider
      "שאלה" none none 0).2 = [] := by
  obtain ⟨n, h1, h2, h3, h4⟩ := C2_context_budget [demoChunkA] demoEmb
    zeroSim failProvider "שאלה" none none 0
  exact h4 rfl

/-- C8: the source list of `get_context_for_query` is the first-occurrence
de-duplication of the included chunks' source files (so it has no
duplicates and preserves first-occurrence order) and is returned separately
from the context text. -/
theorem C8_sources_dedup (chunks : List KnowledgeChunk)
    (emb : List (String × List Rat)) (sim : List Rat → List Rat → Rat)
    (provider : String → Option (List Rat)) (query : String)
    (hmo tier : Option String) (M : Nat) :
    ∃ n,
      (get_context_for_query chunks emb sim provider query hmo tier M).2 =
        dedupKeepFirst
          (((search_similar chunks emb sim provider query hmo tier 10).take
            n).map (fun p => p.1.source_file)) ∧
      (get_context_for_query chunks emb sim provider query hmo tier
        M).2.Nodup := by
  obtain ⟨n, hn, hparts, hsrc, hbud, hbrk⟩ := context_loop_spec M
    (search_similar chunks emb sim provider query hmo tier 10) [] [] 0
  have hd : (get_context_for_query chunks emb sim provider query hmo tier
      M).2 = dedupKeepFirst
        (((search_similar chunks emb sim provider query hmo tier 10).take
          n).map (fun p => p.1.source_file)) := by
    rw [get_context_snd, hsrc, foldl_dedup_eq]
    simp
  refine ⟨n, hd, ?_⟩
  rw [hd]
  exact dedupKeepFirst_nodup _

/-- Witness for C8 at a concrete one-chunk search. -/
theorem C8_sources_dedup_witness :
    ∃ n,
      (get_context_for_query [demoChunkA] demoEmb zeroSim failProvider
        "שאלה" none none 2000).2 =
        dedupKeepFirst
          (((search_similar [demoChunkA] demoEmb zeroSim failProvider
            "שאלה" none none 10).take n).map (fun p => p.1.source_file)) ∧
      (get_context_for_query [demoChunkA] demoEmb zeroSim failProvider
        "שאלה" none none 2000).2.Nodup :=
  C8_sources_dedup [demoChunkA] demoEmb zeroSim failProvider "שאלה"
    none none 2000

/-- C10: the context string is empty exactly when the source list is empty:
each included chunk contributes a non-empty text and registers its source
file, and nothing else is ever added to either output. -/
theorem C10_context_empty_iff_sources_empty (chunks : List KnowledgeChunk)
    (emb : List (String × List Rat)) (sim : List Rat → List Rat → Rat)
    (provider : String → Option (List Rat)) (query : String)
    (hmo tier : Option String) (M : Nat) :
    ((get_context_for_query chunks emb sim provider query hmo tier M).1 =
      "" ↔
     (get_context_for_query chunks emb sim provider query hmo tier M).2 =
      []) := by
  obtain ⟨n, hn, hparts, hsrc, hbud, hbrk⟩ := context_loop_spec M
    (search_similar chunks emb sim provider query hmo tier 10) [] [] 0
  rw [get_context_fst, get_context_snd, hparts, hsrc, List.nil_append]
  cases htake : (search_similar chunks emb sim provider query hmo tier
      10).take n with
  | nil =>
    simp [String.intercalate]
  | cons q rest =>
    simp only [List.map_cons]
    constructor
    · intro h
      exact absurd h
        (intercalate_cons_ne_empty (by rw [chunk_text_data]; simp))
    · intro h
      exfalso
      rw [foldl_dedup_eq, List.nil_append, List.filter_cons] at h
      rw [show (([] : List String).contains q.1.source_file) = false from
        rfl] at h
      simp only [Bool.not_false, if_pos] at h
      rw [dedupKeepFirst] at h
      simp at h

/-- C5: `search_similar` returns the top-`top_k` slice of the scored list
sorted in descending similarity order; the sort is Python's stable sort,
i.e. equal to sorting the position-decorated list, so equal-score entries
stay in their original relative order, and that original order is the
chunk-list order (the scored list is a sublist of the chunk list). -/
theorem C5_ranked_stable_sort (chunks : List KnowledgeChunk)
    (emb : List (String × List Rat)) (sim : List Rat → List Rat → Rat)
    (provider : String → Option (List Rat)) (query : String)
    (hmo tier : Option String) (k : Nat) :
    (search_similar chunks emb sim provider query hmo tier k).length ≤ k ∧
    (search_similar chunks emb sim provider query hmo tier k).Pairwise
      (fun a b => b.2 ≤ a.2) ∧
    search_similar chunks emb sim provider query hmo tier k =
      (((similarity_list chunks emb sim (_get_embedding provider query)
          hmo tier).enum.mergeSort (List.enumLE simDescLe)).map
        (fun p => p.2)).take k ∧
    ((similarity_list chunks emb sim (_get_embedding provider query) hmo
        tier).enum.mergeSort (List.enumLE simDescLe)).Pairwise
      (fun x y => y.2.2 < x.2.2 ∨ (x.2.2 = y.2.2 ∧ x.1 < y.1)) ∧
    (∀ p ∈ (similarity_list chunks emb sim (_get_embedding provider query)
        hmo tier).enum.mergeSort (List.enumLE simDescLe),
      (similarity_list chunks emb sim (_get_embedding provider query) hmo
        tier).get? p.1 = some p.2) ∧
    List.Sublist ((similarity_list chunks emb sim
      (_get_embedding provider query) hmo tier).map Prod.fst) chunks := by
  have hcore : search_similar chunks emb sim provider query hmo tier k =
      ((similarity_list chunks emb sim (_get_embedding provider query) hmo
        tier).mergeSort simDescLe).take k := rfl
  refine ⟨?_, ?_, ?_, ?_, ?_, ?_⟩
  · rw [hcore]
    simp [List.length_take]
  · rw [hcore]
    have hsorted := List.sorted_mergeSort simDescLe_trans simDescLe_total
      (similarity_list chunks emb sim (_get_embedding provider query) hmo
        tier)
    have := (List.Pairwise.sublist (List.take_sublist k _) hsorted)
    exact this.imp (fun h => by simpa [simDescLe] using h)
  · rw [hcore, List.mergeSort_enum]
  · have hsorted := List.sorted_mergeSort
      (List.enumLE_trans simDescLe_trans)
      (List.enumLE_total simDescLe_total)
      (similarity_list chunks emb sim (_get_embedding provider query) hmo
        tier).enum
    have hperm := List.mergeSort_perm
      (similarity_list chunks emb sim (_get_embedding provider query) hmo
        tier).enum (List.enumLE simDescLe)
    have hnd := ((hperm.map Prod.fst).nodup_iff).mpr
      (List.nodup_enum_map_fst _)
    have hne := List.pairwise_map.mp hnd
    refine (hsorted.and hne).imp ?_
    intro x y hxy
    obtain ⟨h1, h2⟩ := hxy
    by_cases hba : y.2.2 ≤ x.2.2
    · by_cases hab : x.2.2 ≤ y.2.2
      · refine Or.inr ⟨le_antisymm hab hba, ?_⟩
        simp [List.enumLE, simDescLe, hba, hab] at h1
        exact lt_of_le_of_ne h1 h2
      · exact Or.inl (lt_of_le_not_le hba hab)
    · exfalso
      simp [List.enumLE, simDescLe, hba] at h1
  · intro p hp
    rw [List.mem_mergeSort] at hp
    rw [List.get?_eq_getElem?]
    exact List.mem_enum_iff_getElem?.mp hp
  · exact similarity_list_fst_sublist chunks emb sim
      (_get_embedding provider query) hmo tier

/-- Witness for C5 at a concrete one-chunk search. -/
theorem C5_ranked_stable_sort_witness :
    (search_similar [demoChunkA] demoEmb zeroSim failProvider "שאלה"
      none none 5).length ≤ 5 ∧
    ((0, (demoChunkA, (0 : Rat))) ∈
        (similarity_list [demoChunkA] demoEmb zeroSim
          (_get_embedding failProvider "שאלה") none none).enum.mergeSort
          (List.enumLE simDescLe) →
      (similarity_list [demoChunkA] demoEmb zeroSim
        (_get_embedding failProvider "שאלה") none none).get? 0 =
        some (demoChunkA, (0 : Rat))) :=
  ⟨(C5_ranked_stable_sort [demoChunkA] demoEmb zeroSim failProvider "שאלה"
      none none 5).1,
   fun hp => (C5_ranked_stable_sort [demoChunkA] demoEmb zeroSim
      failProvider "שאלה" none none 5).2.2.2.2.1 (0, (demoChunkA, 0)) hp⟩
